import Mathlib

/-!
Shallow embedding of `flask_security/datastore.py`.

The module provides a backend-agnostic identity service (`UserDatastore`)
over three concrete backends.  We embed:

* the "embedded list" family (`SQLAlchemyUserDatastore` /
  `MongoEngineUserDatastore`), where a user carries its role/group
  reference lists directly, as operations on `EState`;
* the "join table" family (`PeeweeUserDatastore`), where membership is a
  list of link rows, as operations on `PState`.

Python `None` results of the finders are `Option`; a Python
`AttributeError` raised by dereferencing `None` is `Except.error`.
Adapter activity (`put`) is recorded as an explicit call trace so that
claims about persistence can be stated.
-/

namespace FlaskSecurity

/-- A role entity: identifier, unique name, and a stand-in for the
arbitrary extra attributes (`description`). -/
structure Role where
  id : Nat
  name : String
  description : String
deriving DecidableEq

/-- A group entity, same shape as `Role`. -/
structure Group where
  id : Nat
  name : String
  description : String
deriving DecidableEq

/-- A user of the embedded-list backends: the entity holds ordered
collections of role/group references.  Entries are `Option` because the
service can place a `None` reference in the list
(`_prepare_create_user_args`, `add_role_to_user` on an unresolved name). -/
structure EUser where
  id : Nat
  email : String
  active : Bool
  roles : List (Option Role)
  groups : List (Option Group)
deriving DecidableEq

/-- One call into the persistence adapter (`Datastore.put` / `delete` /
`commit`). -/
inductive AdapterCall where
  | put
  | del
  | commit
deriving DecidableEq

/-- The Python exception surfaced by dereferencing an unresolved (`None`)
entity, e.g. `None.roles` or `None.id`. -/
inductive PyError where
  | attributeError
deriving DecidableEq

/-- Store state of an embedded-list backend: the tables plus fresh-id
counters standing for backend-assigned primary keys. -/
structure EState where
  users : List EUser
  roles : List Role
  groups : List Group
  nextUserId : Nat
  nextRoleId : Nat
  nextGroupId : Nat
deriving DecidableEq

namespace EState

/-- `find_user(email=...)`: first user whose email matches exactly. -/
def find_user (st : EState) (email : String) : Option EUser :=
  st.users.find? (fun u => u.email == email)

/-- `find_role(role)`: first role whose name matches exactly. -/
def find_role (st : EState) (name : String) : Option Role :=
  st.roles.find? (fun r => r.name == name)

/-- `find_group(group)`: first group whose name matches exactly. -/
def find_group (st : EState) (name : String) : Option Group :=
  st.groups.find? (fun g => g.name == name)

/-- `put(user)`: stage the (mutated) user into the store.  The session
holds entities by identity; in the value model this writes the record
back over the entry with the same primary key (or inserts it). -/
def putUser (st : EState) (u : EUser) : EState :=
  if st.users.any (fun v => v.id == u.id) then
    { st with users := st.users.map (fun v => if v.id == u.id then u else v) }
  else
    { st with users := st.users ++ [u] }

end EState

/-- A `user` argument of the membership methods: a concrete entity or an
email string (`_prepare_role_modify_args` resolves strings via
`find_user`). -/
inductive UserRef where
  | ent (u : EUser)
  | email (s : String)

/-- A `role` argument: entity or name string. -/
inductive RoleRef where
  | ent (r : Role)
  | name (s : String)

/-- A `group` argument: entity or name string. -/
inductive GroupRef where
  | ent (g : Group)
  | name (s : String)

namespace EState

/-- User half of `_prepare_role_modify_args` / `_prepare_group_modify_args`. -/
def resolveUser (st : EState) : UserRef → Option EUser
  | .ent u => some u
  | .email s => st.find_user s

/-- Role half of `_prepare_role_modify_args`. -/
def resolveRole (st : EState) : RoleRef → Option Role
  | .ent r => some r
  | .name s => st.find_role s

/-- Group half of `_prepare_group_modify_args`. -/
def resolveGroup (st : EState) : GroupRef → Option Group
  | .ent g => some g
  | .name s => st.find_group s

/-- `UserDatastore.add_role_to_user`: resolve both references; `user.roles`
on an unresolved user raises; otherwise append-and-put unless the resolved
reference (possibly `none`) is already in the list. -/
def add_role_to_user (st : EState) (uref : UserRef) (rref : RoleRef) :
    Except PyError (Bool × EState × List AdapterCall) :=
  let role? := st.resolveRole rref
  match st.resolveUser uref with
  | none => .error .attributeError
  | some u =>
    if role? ∈ u.roles then
      .ok (false, st, [])
    else
      .ok (true, st.putUser { u with roles := u.roles ++ [role?] }, [.put])

/-- `UserDatastore.add_user_to_group`, same shape as `add_role_to_user`. -/
def add_user_to_group (st : EState) (uref : UserRef) (gref : GroupRef) :
    Except PyError (Bool × EState × List AdapterCall) :=
  let group? := st.resolveGroup gref
  match st.resolveUser uref with
  | none => .error .attributeError
  | some u =>
    if group? ∈ u.groups then
      .ok (false, st, [])
    else
      .ok (true, st.putUser { u with groups := u.groups ++ [group?] }, [.put])

/-- `UserDatastore.remove_role_from_user`: remove the first occurrence and
put when present, otherwise report no change. -/
def remove_role_from_user (st : EState) (uref : UserRef) (rref : RoleRef) :
    Except PyError (Bool × EState × List AdapterCall) :=
  let role? := st.resolveRole rref
  match st.resolveUser uref with
  | none => .error .attributeError
  | some u =>
    if role? ∈ u.roles then
      .ok (true, st.putUser { u with roles := u.roles.erase role? }, [.put])
    else
      .ok (false, st, [])

/-- `UserDatastore.remove_user_from_group`, same shape. -/
def remove_user_from_group (st : EState) (uref : UserRef) (gref : GroupRef) :
    Except PyError (Bool × EState × List AdapterCall) :=
  let group? := st.resolveGroup gref
  match st.resolveUser uref with
  | none => .error .attributeError
  | some u =>
    if group? ∈ u.groups then
      .ok (true, st.putUser { u with groups := u.groups.erase group? }, [.put])
    else
      .ok (false, st, [])

end EState

/-- `UserDatastore.toggle_active`: flip the flag in memory, always `True`;
the method never touches the adapter, hence the empty call trace. -/
def toggle_active (u : EUser) : Bool × EUser × List AdapterCall :=
  (true, { u with active := !u.active }, [])

/-- `UserDatastore.deactivate_user`: clear the flag and report a change
only when it was set; no adapter call in either branch. -/
def deactivate_user (u : EUser) : Bool × EUser × List AdapterCall :=
  if u.active then
    (true, { u with active := false }, [])
  else
    (false, u, [])

/-- `UserDatastore.activate_user`: set the flag and report a change only
when it was clear; no adapter call in either branch. -/
def activate_user (u : EUser) : Bool × EUser × List AdapterCall :=
  if !u.active then
    (true, { u with active := true }, [])
  else
    (false, u, [])

namespace EState

/-- `UserDatastore.create_role`: instantiate `role_model(**kwargs)` and
`put` it; the backend assigns the primary key. -/
def create_role (st : EState) (name description : String) : Role × EState :=
  let r : Role := { id := st.nextRoleId, name := name, description := description }
  (r, { st with roles := st.roles ++ [r], nextRoleId := st.nextRoleId + 1 })

/-- `UserDatastore.create_group`, same shape as `create_role`. -/
def create_group (st : EState) (name description : String) : Group × EState :=
  let g : Group := { id := st.nextGroupId, name := name, description := description }
  (g, { st with groups := st.groups ++ [g], nextGroupId := st.nextGroupId + 1 })

/-- `UserDatastore.find_or_create_role`:
`return self.find_role(name) or self.create_role(**kwargs)`. -/
def find_or_create_role (st : EState) (name description : String) : Role × EState :=
  match st.find_role name with
  | some r => (r, st)
  | none => st.create_role name description

/-- `UserDatastore.find_or_create_group`, same shape. -/
def find_or_create_group (st : EState) (name description : String) : Group × EState :=
  match st.find_group name with
  | some g => (g, st)
  | none => st.create_group name description

end EState

/-- A `roles` entry handed to `create_user`: a role entity or a name
string. -/
inductive RoleInput where
  | ent (r : Role)
  | name (s : String)

/-- The name under which a `roles` entry is re-resolved:
`rn = role.name if isinstance(role, self.role_model) else role`. -/
def RoleInput.resolvedName : RoleInput → String
  | .ent r => r.name
  | .name s => s

/-- A `groups` entry handed to `create_user`. -/
inductive GroupInput where
  | ent (g : Group)
  | name (s : String)

/-- The name under which a `groups` entry is re-resolved. -/
def GroupInput.resolvedName : GroupInput → String
  | .ent g => g.name
  | .name s => s

/-- The keyword arguments of `create_user`; `active = none` models the key
being absent (so `setdefault` fires). -/
structure CreateUserArgs where
  email : String
  active : Option Bool
  roles : List RoleInput
  groups : List GroupInput

namespace EState

/-- `UserDatastore._prepare_create_user_args`: default `active` to `True`,
replace every roles/groups entry by the result of looking its name up
(possibly `none`).  Returns the prepared (active, roles, groups) triple. -/
def prepare_create_user_args (st : EState) (a : CreateUserArgs) :
    Bool × List (Option Role) × List (Option Group) :=
  (a.active.getD true,
   a.roles.map (fun ri => st.find_role ri.resolvedName),
   a.groups.map (fun gi => st.find_group gi.resolvedName))

/-- `UserDatastore.create_user`: prepare the kwargs, instantiate the user
model and `put` it. -/
def create_user (st : EState) (a : CreateUserArgs) :
    EUser × EState × List AdapterCall :=
  let p := st.prepare_create_user_args a
  let u : EUser :=
    { id := st.nextUserId, email := a.email, active := p.1,
      roles := p.2.1, groups := p.2.2 }
  (u, { st.putUser u with nextUserId := st.nextUserId + 1 }, [.put])

end EState

/-- Accumulate decimal digits into a number; `none` on a non-digit. -/
def digitsToNat? (l : List Char) : Option Nat :=
  l.foldl
    (fun acc? c =>
      acc?.bind (fun acc =>
        if c.isDigit then some (acc * 10 + (c.toNat - 48)) else none))
    (some 0)

/-- Python `int(value)` on a string: an optional sign followed by at least
one decimal digit; `none` when the conversion raises `ValueError`. -/
def pyParseInt (s : String) : Option Int :=
  match s.data with
  | [] => none
  | '-' :: rest =>
    if rest.isEmpty then none
    else (digitsToNat? rest).map (fun n => -(n : Int))
  | '+' :: rest =>
    if rest.isEmpty then none
    else (digitsToNat? rest).map (fun n => (n : Int))
  | l => (digitsToNat? l).map (fun n => (n : Int))

/-- `SQLAlchemyUserDatastore._is_numeric`: `int(value)` succeeds. -/
def pyIsNumeric (s : String) : Bool :=
  (pyParseInt s).isSome

/-- One `ilike` test without wildcard characters in the pattern:
case-insensitive equality. -/
def ilikeEq (a b : String) : Bool :=
  a.data.map Char.toLower == b.data.map Char.toLower

namespace EState

/-- `query.get(identifier)`: primary-key lookup. -/
def pkGetUser (st : EState) (k : Int) : Option EUser :=
  st.users.find? (fun u => (u.id : Int) == k)

/-- The identity-attribute loop of `SQLAlchemyUserDatastore.get_user`: for
each configured attribute in order, take the first user matching
case-insensitively; fall through to the next attribute on a miss. -/
def scanIdentityAttributes (st : EState) (attrs : List (EUser → String))
    (identifier : String) : Option EUser :=
  match attrs with
  | [] => none
  | a :: rest =>
    match st.users.find? (fun u => ilikeEq (a u) identifier) with
    | some u => some u
    | none => st.scanIdentityAttributes rest identifier

/-- `SQLAlchemyUserDatastore.get_user`: a numeric identifier is answered by
the primary-key lookup alone (its result is returned directly); only a
non-numeric identifier enters the attribute loop.  `attrs` is the
externally configured identity-attribute list. -/
def get_user (st : EState) (attrs : List (EUser → String))
    (identifier : String) : Option EUser :=
  match pyParseInt identifier with
  | some k => st.pkGetUser k
  | none => st.scanIdentityAttributes attrs identifier

end EState

/-- A user of the join-table backend (`PeeweeUserDatastore`): the entity
carries no membership lists. -/
structure PUser where
  id : Nat
  email : String
  active : Bool
deriving DecidableEq

/-- A row of the `UserRole` link model. -/
structure URLink where
  user : Nat
  role : Nat
deriving DecidableEq

/-- A row of the `UserGroup` link model. -/
structure UGLink where
  user : Nat
  group : Nat
deriving DecidableEq

/-- Store state of the join-table backend. -/
structure PState where
  users : List PUser
  roles : List Role
  groups : List Group
  userRoles : List URLink
  userGroups : List UGLink
deriving DecidableEq

/-- A `user` argument of the join-table membership methods. -/
inductive PUserRef where
  | ent (u : PUser)
  | email (s : String)

namespace PState

/-- Peewee `find_user`: `filter(...).get()` with `DoesNotExist` mapped to
`None` — the first user whose email matches. -/
def find_user (st : PState) (email : String) : Option PUser :=
  st.users.find? (fun u => u.email == email)

/-- Peewee `find_role`. -/
def find_role (st : PState) (name : String) : Option Role :=
  st.roles.find? (fun r => r.name == name)

/-- Peewee `find_group`. -/
def find_group (st : PState) (name : String) : Option Group :=
  st.groups.find? (fun g => g.name == name)

/-- User half of `_prepare_role_modify_args` for this backend. -/
def resolveUser (st : PState) : PUserRef → Option PUser
  | .ent u => some u
  | .email s => st.find_user s

/-- Role half, shared `RoleRef` argument type. -/
def resolveRole (st : PState) : RoleRef → Option Role
  | .ent r => some r
  | .name s => st.find_role s

/-- Group half. -/
def resolveGroup (st : PState) : GroupRef → Option Group
  | .ent g => some g
  | .name s => st.find_group s

/-- `PeeweeUserDatastore.add_role_to_user`: the `where` clause reads
`user.id` and `role.id`, so an unresolved reference raises; otherwise
create a link row unless one already exists. -/
def add_role_to_user (st : PState) (uref : PUserRef) (rref : RoleRef) :
    Except PyError (Bool × PState) :=
  match st.resolveUser uref, st.resolveRole rref with
  | none, _ => .error .attributeError
  | some _, none => .error .attributeError
  | some u, some r =>
    if st.userRoles.any (fun w => w.user == u.id && w.role == r.id) then
      .ok (false, st)
    else
      .ok (true, { st with userRoles := st.userRoles ++ [⟨u.id, r.id⟩] })

/-- `PeeweeUserDatastore.add_user_to_group`, same shape. -/
def add_user_to_group (st : PState) (uref : PUserRef) (gref : GroupRef) :
    Except PyError (Bool × PState) :=
  match st.resolveUser uref, st.resolveGroup gref with
  | none, _ => .error .attributeError
  | some _, none => .error .attributeError
  | some u, some g =>
    if st.userGroups.any (fun w => w.user == u.id && w.group == g.id) then
      .ok (false, st)
    else
      .ok (true, { st with userGroups := st.userGroups ++ [⟨u.id, g.id⟩] })

/-- Does a link row match an optional entity?  The Peewee `where` clause of
the remove methods compares the foreign-key column to the entity itself
(coerced to its key); comparison against `None` matches no row. -/
def rowMatchesUR (user? : Option PUser) (role? : Option Role) (w : URLink) : Bool :=
  (match user? with | some u => w.user == u.id | none => false) &&
  (match role? with | some r => w.role == r.id | none => false)

/-- Group version of `rowMatchesUR`. -/
def rowMatchesUG (user? : Option PUser) (group? : Option Group) (w : UGLink) : Bool :=
  (match user? with | some u => w.user == u.id | none => false) &&
  (match group? with | some g => w.group == g.id | none => false)

/-- `PeeweeUserDatastore.remove_role_from_user`: count matching rows; when
any exist, delete them all via a query (no adapter call) and report a
change. -/
def remove_role_from_user (st : PState) (uref : PUserRef) (rref : RoleRef) :
    Except PyError (Bool × PState) :=
  let user? := st.resolveUser uref
  let role? := st.resolveRole rref
  if st.userRoles.any (rowMatchesUR user? role?) then
    .ok (true, { st with userRoles := st.userRoles.filter (fun w => !rowMatchesUR user? role? w) })
  else
    .ok (false, st)

/-- `PeeweeUserDatastore.remove_user_from_group`, same shape. -/
def remove_user_from_group (st : PState) (uref : PUserRef) (gref : GroupRef) :
    Except PyError (Bool × PState) :=
  let user? := st.resolveUser uref
  let group? := st.resolveGroup gref
  if st.userGroups.any (rowMatchesUG user? group?) then
    .ok (true, { st with userGroups := st.userGroups.filter (fun w => !rowMatchesUG user? group? w) })
  else
    .ok (false, st)

end PState

/-! ### A common language of membership operations

Both backends accept loose (string) references, so a sequence of
membership mutations over emails and names is a program meaningful to
either backend; the refinement claim compares the two runs. -/

/-- One membership mutation, with loose references. -/
inductive MemOp where
  | addRole (email rolename : String)
  | remRole (email rolename : String)
  | addGroup (email groupname : String)
  | remGroup (email groupname : String)
deriving DecidableEq

/-- Run one operation on the embedded-list backend (adapter trace
dropped). -/
def stepE (st : EState) : MemOp → Except PyError (Bool × EState)
  | .addRole e n => (st.add_role_to_user (.email e) (.name n)).map (fun x => (x.1, x.2.1))
  | .remRole e n => (st.remove_role_from_user (.email e) (.name n)).map (fun x => (x.1, x.2.1))
  | .addGroup e n => (st.add_user_to_group (.email e) (.name n)).map (fun x => (x.1, x.2.1))
  | .remGroup e n => (st.remove_user_from_group (.email e) (.name n)).map (fun x => (x.1, x.2.1))

/-- Run one operation on the join-table backend. -/
def stepP (st : PState) : MemOp → Except PyError (Bool × PState)
  | .addRole e n => st.add_role_to_user (.email e) (.name n)
  | .remRole e n => st.remove_role_from_user (.email e) (.name n)
  | .addGroup e n => st.add_user_to_group (.email e) (.name n)
  | .remGroup e n => st.remove_user_from_group (.email e) (.name n)

/-- Run a sequence on the embedded-list backend, collecting the boolean
results. -/
def runE (st : EState) : List MemOp → Except PyError (List Bool × EState)
  | [] => .ok ([], st)
  | op :: ops =>
    match stepE st op with
    | .error e => .error e
    | .ok (b, st1) =>
      match runE st1 ops with
      | .error e => .error e
      | .ok (bs, st2) => .ok (b :: bs, st2)

/-- Run a sequence on the join-table backend. -/
def runP (st : PState) : List MemOp → Except PyError (List Bool × PState)
  | [] => .ok ([], st)
  | op :: ops =>
    match stepP st op with
    | .error e => .error e
    | .ok (b, st1) =>
      match runP st1 ops with
      | .error e => .error e
      | .ok (bs, st2) => .ok (b :: bs, st2)

/-- Both references of an operation resolve in the embedded state. -/
def MemOp.resolvable (e : EState) : MemOp → Prop
  | .addRole em n => (e.find_user em).isSome ∧ (e.find_role n).isSome
  | .remRole em n => (e.find_user em).isSome ∧ (e.find_role n).isSome
  | .addGroup em n => (e.find_user em).isSome ∧ (e.find_group n).isSome
  | .remGroup em n => (e.find_user em).isSome ∧ (e.find_group n).isSome

/-- Project an embedded-backend user to the join-table backend's user
shape. -/
def EUser.toP (u : EUser) : PUser :=
  { id := u.id, email := u.email, active := u.active }

/-- Correspondence between an embedded-list state and a join-table state:
the scalar tables agree, primary keys are genuine keys, the embedded
reference lists are well-formed (duplicate-free references into the role
and group tables), and the two representations induce the same membership
relation. -/
structure Sim (e : EState) (p : PState) : Prop where
  users_eq : e.users.map EUser.toP = p.users
  roles_eq : e.roles = p.roles
  groups_eq : e.groups = p.groups
  uid_nodup : (e.users.map (fun u => u.id)).Nodup
  rid_nodup : (e.roles.map (fun r => r.id)).Nodup
  gid_nodup : (e.groups.map (fun g => g.id)).Nodup
  roles_wf : ∀ u ∈ e.users, ∀ x ∈ u.roles, ∃ r ∈ e.roles, x = some r
  groups_wf : ∀ u ∈ e.users, ∀ x ∈ u.groups, ∃ g ∈ e.groups, x = some g
  roles_nodup : ∀ u ∈ e.users, u.roles.Nodup
  groups_nodup : ∀ u ∈ e.users, u.groups.Nodup
  rmem : ∀ uid rid, (∃ w ∈ p.userRoles, w.user = uid ∧ w.role = rid) ↔
    (∃ u ∈ e.users, u.id = uid ∧ ∃ r, some r ∈ u.roles ∧ r.id = rid)
  gmem : ∀ uid gid, (∃ w ∈ p.userGroups, w.user = uid ∧ w.group = gid) ↔
    (∃ u ∈ e.users, u.id = uid ∧ ∃ g, some g ∈ u.groups ∧ g.id = gid)

/-! ### Concrete test fixtures -/

/-- A sample role. -/
def adminRole : Role := { id := 1, name := "admin", description := "" }

/-- A sample group. -/
def staffGroup : Group := { id := 1, name := "staff", description := "" }

/-- A sample user carrying no memberships. -/
def alice : EUser :=
  { id := 1, email := "a@x.com", active := true, roles := [], groups := [] }

/-- A sample embedded-backend store holding `alice`, `adminRole` and
`staffGroup`. -/
def est0 : EState :=
  { users := [alice], roles := [adminRole], groups := [staffGroup],
    nextUserId := 2, nextRoleId := 2, nextGroupId := 2 }

/-- The join-table store corresponding to `est0`. -/
def pst0 : PState :=
  { users := [alice.toP], roles := [adminRole], groups := [staffGroup],
    userRoles := [], userGroups := [] }

/-- A store whose sole user has the numeric-looking email `"5"` but the
primary key `1`. -/
def numericEmailStore : EState :=
  { users := [{ id := 1, email := "5", active := true, roles := [], groups := [] }],
    roles := [], groups := [], nextUserId := 2, nextRoleId := 1, nextGroupId := 1 }

/-- The identity-attribute configuration `["email"]`. -/
def emailAttr : List (EUser → String) :=
  [fun u => u.email]

/-! ### Theorems -/

/-- **C8.** `toggle_active` is a pure toggle: it always returns `true`, it
flips the `active` flag, and a second call returns `true` again and
restores the original user record. -/
theorem spec_C8_toggle_involution (u : EUser) :
    (toggle_active u).1 = true ∧
    (toggle_active u).2.1.active = !u.active ∧
    (toggle_active ((toggle_active u).2.1)).1 = true ∧
    (toggle_active ((toggle_active u).2.1)).2.1 = u := by
  refine ⟨rfl, rfl, rfl, ?_⟩
  cases u
  simp [toggle_active]

/-- **C10.** `toggle_active` mutates only the `active` flag of the user and
issues no adapter call at all: the identifier, email and both membership
collections are unchanged and the adapter-call trace is empty. -/
theorem spec_C10_toggle_frame (u : EUser) :
    (toggle_active u).1 = true ∧
    (toggle_active u).2.1.id = u.id ∧
    (toggle_active u).2.1.email = u.email ∧
    (toggle_active u).2.1.roles = u.roles ∧
    (toggle_active u).2.1.groups = u.groups ∧
    (toggle_active u).2.1.active = !u.active ∧
    (toggle_active u).2.2 = [] :=
  ⟨rfl, rfl, rfl, rfl, rfl, rfl, rfl⟩

/-- **C3, counterexample.** `deactivate_user` on an active user reports a
change (`true`) yet its adapter-call trace is empty: the claim that the
methods persist the user (call the adapter's `put`) exactly when the flag
flips is false — they never call `put`. -/
theorem spec_C3_counterexample :
    (deactivate_user alice).1 = true ∧ (deactivate_user alice).2.2 = [] :=
  ⟨rfl, rfl⟩

/-- **C3, amended.** `activate_user` / `deactivate_user` are guarded
in-memory transitions: each returns `true` exactly when the flag is
currently in the opposite state and sets it to the target value, but
neither method ever calls the adapter's `put` (empty call trace); in
particular `activate_user` on an already-active user returns `false` and
does not persist. -/
theorem spec_C3_guarded_transitions (u : EUser) :
    deactivate_user u = (u.active, { u with active := false }, []) ∧
    activate_user u = (!u.active, { u with active := true }, []) := by
  cases u with
  | mk i e a r g => cases a <;> simp [deactivate_user, activate_user]

/-- **C7.** `remove_role_from_user` on a user not holding the role returns
`false`, leaves the whole store unchanged and issues no adapter call; when
the role is present it erases it from the collection, puts the user, and
returns `true` (under the no-duplicates invariant the role is then gone
from the collection). -/
theorem spec_C7_remove_role_frame (st : EState) (u : EUser) (r : Role) :
    (some r ∉ u.roles →
      st.remove_role_from_user (.ent u) (.ent r) = .ok (false, st, [])) ∧
    (some r ∈ u.roles →
      st.remove_role_from_user (.ent u) (.ent r) =
        .ok (true, st.putUser { u with roles := u.roles.erase (some r) }, [.put]) ∧
      (u.roles.Nodup → some r ∉ u.roles.erase (some r))) := by
  constructor
  · intro h
    simp [EState.remove_role_from_user, EState.resolveUser, EState.resolveRole, h]
  · intro h
    refine ⟨?_, fun hn => hn.not_mem_erase⟩
    simp [EState.remove_role_from_user, EState.resolveUser, EState.resolveRole, h]

/-- **C7, witness.** Removing `adminRole` from `alice`, who does not hold
it, reports no change and leaves `est0` untouched. -/
theorem spec_C7_remove_role_frame_witness :
    EState.remove_role_from_user est0 (.ent alice) (.ent adminRole) =
      .ok (false, est0, []) :=
  (spec_C7_remove_role_frame est0 alice adminRole).1 (by decide)

/-- **C6.** `find_or_create_role` / `find_or_create_group` are idempotent
creations keyed by name: an existing entity is returned untouched (state
unchanged, extra attributes ignored), extra attributes are applied only
when a new entity is created, and two successive calls with the same name
return the same entity both times. -/
theorem spec_C6_find_or_create_idempotent (st : EState) (name d1 d2 : String) :
    (∀ r, st.find_role name = some r → st.find_or_create_role name d1 = (r, st)) ∧
    (st.find_role name = none →
      (st.find_or_create_role name d1).1 =
        { id := st.nextRoleId, name := name, description := d1 }) ∧
    (((st.find_or_create_role name d1).2.find_or_create_role name d2).1 =
      (st.find_or_create_role name d1).1) ∧
    (∀ g, st.find_group name = some g → st.find_or_create_group name d1 = (g, st)) ∧
    (((st.find_or_create_group name d1).2.find_or_create_group name d2).1 =
      (st.find_or_create_group name d1).1) := by
  refine ⟨?_, ?_, ?_, ?_, ?_⟩
  · intro r h
    simp [EState.find_or_create_role, h]
  · intro h
    simp [EState.find_or_create_role, EState.create_role, h]
  · cases h : st.find_role name with
    | some r => simp [EState.find_or_create_role, h]
    | none =>
      simp only [EState.find_or_create_role, EState.create_role, h]
      have h2 : (st.roles ++
          [({ id := st.nextRoleId, name := name, description := d1 } : Role)]).find?
            (fun r => r.name == name) =
          some { id := st.nextRoleId, name := name, description := d1 } := by
        rw [List.find?_append]
        unfold EState.find_role at h
        simp [h, List.find?]
      simp [EState.find_role, h2]
  · intro g h
    simp [EState.find_or_create_group, h]
  · cases h : st.find_group name with
    | some g => simp [EState.find_or_create_group, h]
    | none =>
      simp only [EState.find_or_create_group, EState.create_group, h]
      have h2 : (st.groups ++
          [({ id := st.nextGroupId, name := name, description := d1 } : Group)]).find?
            (fun g => g.name == name) =
          some { id := st.nextGroupId, name := name, description := d1 } := by
        rw [List.find?_append]
        unfold EState.find_group at h
        simp [h, List.find?]
      simp [EState.find_group, h2]

/-- **C6, witness.** Looking up the existing name `admin` with fresh extra
attributes returns the stored `adminRole` and leaves `est0` untouched. -/
theorem spec_C6_find_or_create_idempotent_witness :
    EState.find_or_create_role est0 "admin" "extra" = (adminRole, est0) :=
  (spec_C6_find_or_create_idempotent est0 "admin" "extra" "other").1 adminRole (by decide)

/-- **C9.** `create_user` defaults `active` to `true` when unspecified and
keeps an explicitly supplied value; every supplied roles/groups entry
(entity or name string) is replaced by the result of resolving its name
against the already-persisted tables; the role and group tables are left
unchanged (an unresolvable name is never created — it yields a `none`
entry in the relationship list). -/
theorem spec_C9_create_user_resolution (st : EState) (a : CreateUserArgs) :
    ((st.create_user a).1.active = a.active.getD true) ∧
    ((st.create_user a).1.roles =
      a.roles.map (fun ri => st.find_role ri.resolvedName)) ∧
    ((st.create_user a).1.groups =
      a.groups.map (fun gi => st.find_group gi.resolvedName)) ∧
    ((st.create_user a).2.1.roles = st.roles) ∧
    ((st.create_user a).2.1.groups = st.groups) ∧
    (∀ ri ∈ a.roles, st.find_role ri.resolvedName = none →
      none ∈ (st.create_user a).1.roles) := by
  refine ⟨rfl, rfl, rfl, ?_, ?_, ?_⟩
  · simp only [EState.create_user, EState.putUser]
    split <;> rfl
  · simp only [EState.create_user, EState.putUser]
    split <;> rfl
  · intro ri hmem hnone
    have : none ∈ a.roles.map (fun ri => st.find_role ri.resolvedName) := by
      rw [List.mem_map]
      exact ⟨ri, hmem, hnone⟩
    exact this

/-- `put` of a user touches only the user table. -/
lemma putUser_roles_eq (st : EState) (u : EUser) : (st.putUser u).roles = st.roles := by
  unfold EState.putUser
  split <;> rfl

/-- `put` of a user leaves the group table unchanged. -/
lemma putUser_groups_eq (st : EState) (u : EUser) : (st.putUser u).groups = st.groups := by
  unfold EState.putUser
  split <;> rfl

/-- When the written user's key is already present, `put` rewrites the
matching records in place. -/
lemma putUser_users_of_mem (st : EState) (u' : EUser)
    (h : st.users.any (fun v => v.id == u'.id) = true) :
    (st.putUser u').users = st.users.map (fun v => if v.id == u'.id then u' else v) := by
  simp [EState.putUser, h]

/-- Rewriting the found record in place (with an update carrying the same
key and still satisfying the search predicate) makes `find?` return the
updated record, provided keys are duplicate-free. -/
lemma find?_map_update_of_nodup (l : List EUser) (p : EUser → Bool) (u u' : EUser)
    (h : l.find? p = some u) (hnd : (l.map (fun v => v.id)).Nodup)
    (hid : u'.id = u.id) (hp : p u' = true) :
    (l.map (fun v => if v.id == u'.id then u' else v)).find? p = some u' := by
  induction l with
  | nil => cases h
  | cons v t ih =>
    by_cases hpv : p v
    · rw [List.find?_cons_of_pos t hpv] at h
      injection h with h
      subst h
      simp only [List.map_cons, hid, beq_self_eq_true, if_true]
      exact List.find?_cons_of_pos _ hp
    · rw [List.find?_cons_of_neg t hpv] at h
      have hm : u ∈ t := List.mem_of_find?_eq_some h
      simp only [List.map_cons] at hnd ⊢
      rw [List.nodup_cons] at hnd
      have hvne : v.id ≠ u'.id := by
        intro he
        exact hnd.1 ((he.trans hid) ▸ List.mem_map_of_mem (fun x => x.id) hm)
      rw [if_neg (by simp [hvne])]
      rw [List.find?_cons_of_neg _ hpv]
      exact ih h hnd.2

/-- Projection of `toP` on the key. -/
lemma toP_id (u : EUser) : u.toP.id = u.id := rfl

/-- Projection of `toP` on the email. -/
lemma toP_email (u : EUser) : u.toP.email = u.email := rfl

/-- Rewriting all key-matching records with an update that agrees on `f`
leaves the `f`-image of the list unchanged. -/
lemma map_map_update_of_agree {α : Type} (l : List EUser) (u' : EUser) (f : EUser → α)
    (h : ∀ v ∈ l, v.id = u'.id → f v = f u') :
    (l.map (fun v => if v.id == u'.id then u' else v)).map f = l.map f := by
  induction l with
  | nil => rfl
  | cons v t ih =>
    have htail := ih (fun w hw hid => h w (List.mem_cons_of_mem v hw) hid)
    simp only [List.map_cons, htail]
    by_cases hv : (v.id == u'.id) = true
    · rw [if_pos hv, ← h v (List.mem_cons_self v t) (beq_iff_eq.mp hv)]
    · rw [if_neg hv]

/-- A member of the rewritten list is the update or an untouched record
with a different key. -/
lemma mem_update_form (l : List EUser) (u' v' : EUser)
    (h : v' ∈ l.map (fun v => if v.id == u'.id then u' else v)) :
    v' = u' ∨ (v' ∈ l ∧ v'.id ≠ u'.id) := by
  obtain ⟨v, hv, hupd⟩ := List.mem_map.mp h
  by_cases hc : (v.id == u'.id) = true
  · rw [if_pos hc] at hupd
    exact Or.inl hupd.symm
  · rw [if_neg hc] at hupd
    subst hupd
    exact Or.inr ⟨hv, fun he => hc (beq_iff_eq.mpr he)⟩

/-- An untouched record with a different key stays in the rewritten list. -/
lemma mem_update_of_ne (l : List EUser) (u' v : EUser) (hv : v ∈ l)
    (hne : v.id ≠ u'.id) :
    v ∈ l.map (fun w => if w.id == u'.id then u' else w) := by
  refine List.mem_map.mpr ⟨v, hv, ?_⟩
  simp [hne]

/-- The update itself is in the rewritten list as soon as some record
matches the key. -/
lemma update_mem (l : List EUser) (u u' : EUser) (hu : u ∈ l) (hid : u.id = u'.id) :
    u' ∈ l.map (fun w => if w.id == u'.id then u' else w) := by
  refine List.mem_map.mpr ⟨u, hu, ?_⟩
  simp [hid]

/-- `find?.isSome` over users depends only on the email column. -/
lemma find?_email_isSome_congr (l1 l2 : List EUser)
    (h : l1.map (fun v => v.email) = l2.map (fun v => v.email)) (s : String) :
    (l1.find? (fun v => v.email == s)).isSome = (l2.find? (fun v => v.email == s)).isSome := by
  rw [Bool.eq_iff_iff, List.find?_isSome, List.find?_isSome]
  constructor
  · rintro ⟨v, hv, hp⟩
    have hmm : v.email ∈ l2.map (fun v => v.email) :=
      h ▸ List.mem_map_of_mem (fun v => v.email) hv
    obtain ⟨v2, hv2, he⟩ := List.mem_map.mp hmm
    exact ⟨v2, hv2, by rw [he]; exact hp⟩
  · rintro ⟨v, hv, hp⟩
    have hmm : v.email ∈ l1.map (fun v => v.email) :=
      h.symm ▸ List.mem_map_of_mem (fun v => v.email) hv
    obtain ⟨v1, hv1, he⟩ := List.mem_map.mp hmm
    exact ⟨v1, hv1, by rw [he]; exact hp⟩

/-- The join-table finder agrees with the embedded finder through `toP`. -/
lemma find_user_toP (e : EState) (p : PState)
    (hus : e.users.map EUser.toP = p.users) (s : String) :
    p.find_user s = (e.find_user s).map EUser.toP := by
  unfold PState.find_user EState.find_user
  rw [← hus, List.find?_map]
  rfl

/-- Writing back a record with unchanged key and email does not affect
which emails are findable. -/
lemma putUser_find_isSome (e : EState) (u u' : EUser) (humem : u ∈ e.users)
    (hnd : (e.users.map (fun v => v.id)).Nodup) (hid : u'.id = u.id)
    (hem : u'.email = u.email) :
    ∀ s, ((e.putUser u').find_user s).isSome = (e.find_user s).isSome := by
  intro s
  have hany : e.users.any (fun v => v.id == u'.id) = true :=
    List.any_eq_true.mpr ⟨u, humem, by simp [hid]⟩
  unfold EState.find_user
  rw [putUser_users_of_mem e u' hany]
  refine find?_email_isSome_congr _ _ ?_ s
  refine map_map_update_of_agree e.users u' (fun v => v.email) ?_
  intro v hv hvid
  have hvu : v = u := List.inj_on_of_nodup_map hnd hv humem (hvid.trans hid)
  subst hvu
  exact hem.symm

/-- Appending a fresh role reference on the embedded side corresponds to
appending a link row on the join-table side. -/
lemma sim_insert_role (e : EState) (p : PState) (hs : Sim e p)
    (u : EUser) (r : Role) (humem : u ∈ e.users) (hrmem : r ∈ e.roles)
    (habs : some r ∉ u.roles) :
    Sim (e.putUser { u with roles := u.roles ++ [some r] })
        { p with userRoles := p.userRoles ++ [⟨u.id, r.id⟩] } := by
  have hany : e.users.any
      (fun v => v.id == ({ u with roles := u.roles ++ [some r] } : EUser).id) = true :=
    List.any_eq_true.mpr ⟨u, humem, by simp⟩
  have husers1 : (e.putUser { u with roles := u.roles ++ [some r] }).users =
      e.users.map (fun v =>
        if v.id == ({ u with roles := u.roles ++ [some r] } : EUser).id then
          { u with roles := u.roles ++ [some r] } else v) :=
    putUser_users_of_mem e _ hany
  refine ⟨?_, ?_, ?_, ?_, ?_, ?_, ?_, ?_, ?_, ?_, ?_, ?_⟩
  · -- users_eq
    rw [husers1]
    rw [map_map_update_of_agree e.users _ EUser.toP ?_]
    · exact hs.users_eq
    · intro v hv hvid
      have hvu : v = u := List.inj_on_of_nodup_map hs.uid_nodup hv humem hvid
      subst hvu
      rfl
  · -- roles_eq
    rw [putUser_roles_eq]
    exact hs.roles_eq
  · -- groups_eq
    rw [putUser_groups_eq]
    exact hs.groups_eq
  · -- uid_nodup
    rw [husers1]
    rw [map_map_update_of_agree e.users _ (fun v => v.id) (fun v hv hvid => hvid)]
    exact hs.uid_nodup
  · -- rid_nodup
    rw [putUser_roles_eq]
    exact hs.rid_nodup
  · -- gid_nodup
    rw [putUser_groups_eq]
    exact hs.gid_nodup
  · -- roles_wf
    intro v' hv' x hx
    rw [putUser_roles_eq]
    rw [husers1] at hv'
    rcases mem_update_form _ _ _ hv' with h1 | ⟨h1, _⟩
    · subst h1
      rcases List.mem_append.mp hx with h2 | h2
      · exact hs.roles_wf u humem x h2
      · rw [List.mem_singleton] at h2
        exact ⟨r, hrmem, h2⟩
    · exact hs.roles_wf v' h1 x hx
  · -- groups_wf
    intro v' hv' x hx
    rw [putUser_groups_eq]
    rw [husers1] at hv'
    rcases mem_update_form _ _ _ hv' with h1 | ⟨h1, _⟩
    · subst h1
      exact hs.groups_wf u humem x hx
    · exact hs.groups_wf v' h1 x hx
  · -- roles_nodup
    intro v' hv'
    rw [husers1] at hv'
    rcases mem_update_form _ _ _ hv' with h1 | ⟨h1, _⟩
    · subst h1
      refine List.Nodup.append (hs.roles_nodup u humem) (List.nodup_singleton _) ?_
      intro a ha hb
      rw [List.mem_singleton] at hb
      subst hb
      exact habs ha
    · exact hs.roles_nodup v' h1
  · -- groups_nodup
    intro v' hv'
    rw [husers1] at hv'
    rcases mem_update_form _ _ _ hv' with h1 | ⟨h1, _⟩
    · subst h1
      exact hs.groups_nodup u humem
    · exact hs.groups_nodup v' h1
  · -- rmem
    intro uid rid
    rw [husers1]
    constructor
    · rintro ⟨w, hw, hwu, hwr⟩
      rcases List.mem_append.mp hw with hw1 | hw1
      · obtain ⟨v, hv, hvid, r1, hr1, hr1id⟩ := (hs.rmem uid rid).mp ⟨w, hw1, hwu, hwr⟩
        by_cases hc : v.id = u.id
        · have hvu : v = u := List.inj_on_of_nodup_map hs.uid_nodup hv humem hc
          subst hvu
          exact ⟨_, update_mem e.users v _ hv rfl, hvid, r1,
            List.mem_append_left _ hr1, hr1id⟩
        · exact ⟨v, mem_update_of_ne _ _ _ hv hc, hvid, r1, hr1, hr1id⟩
      · rw [List.mem_singleton] at hw1
        subst hw1
        exact ⟨_, update_mem e.users u _ humem rfl, hwu, r,
          List.mem_append_right _ (List.mem_singleton.mpr rfl), hwr⟩
    · rintro ⟨v', hv', hvid', r1, hr1, hr1id⟩
      rcases mem_update_form _ _ _ hv' with h1 | ⟨h1, _⟩
      · subst h1
        rcases List.mem_append.mp hr1 with h2 | h2
        · obtain ⟨w, hw, hwp⟩ := (hs.rmem uid rid).mpr ⟨u, humem, hvid', r1, h2, hr1id⟩
          exact ⟨w, List.mem_append_left _ hw, hwp⟩
        · rw [List.mem_singleton] at h2
          injection h2 with h2
          subst h2
          exact ⟨⟨u.id, r1.id⟩, List.mem_append_right _ (List.mem_singleton.mpr rfl),
            hvid', hr1id⟩
      · obtain ⟨w, hw, hwp⟩ := (hs.rmem uid rid).mpr ⟨v', h1, hvid', r1, hr1, hr1id⟩
        exact ⟨w, List.mem_append_left _ hw, hwp⟩
  · -- gmem
    intro uid gid
    rw [husers1]
    constructor
    · intro hL
      obtain ⟨v, hv, hvid, g1, hg1, hg1id⟩ := (hs.gmem uid gid).mp hL
      by_cases hc : v.id = u.id
      · have hvu : v = u := List.inj_on_of_nodup_map hs.uid_nodup hv humem hc
        subst hvu
        exact ⟨_, update_mem e.users v _ hv rfl, hvid, g1, hg1, hg1id⟩
      · exact ⟨v, mem_update_of_ne _ _ _ hv hc, hvid, g1, hg1, hg1id⟩
    · rintro ⟨v', hv', hvid', g1, hg1, hg1id⟩
      rcases mem_update_form _ _ _ hv' with h1 | ⟨h1, _⟩
      · subst h1
        exact (hs.gmem uid gid).mpr ⟨u, humem, hvid', g1, hg1, hg1id⟩
      · exact (hs.gmem uid gid).mpr ⟨v', h1, hvid', g1, hg1, hg1id⟩

/-- Erasing a held role reference on the embedded side corresponds to
deleting the matching link rows on the join-table side. -/
lemma sim_erase_role (e : EState) (p : PState) (hs : Sim e p)
    (u : EUser) (r : Role) (humem : u ∈ e.users) (hrmem : r ∈ e.roles)
    (hpres : some r ∈ u.roles) :
    Sim (e.putUser { u with roles := u.roles.erase (some r) })
        { p with userRoles :=
            p.userRoles.filter (fun w => !(w.user == u.id && w.role == r.id)) } := by
  have hany : e.users.any
      (fun v => v.id == ({ u with roles := u.roles.erase (some r) } : EUser).id) = true :=
    List.any_eq_true.mpr ⟨u, humem, by simp⟩
  have husers1 : (e.putUser { u with roles := u.roles.erase (some r) }).users =
      e.users.map (fun v =>
        if v.id == ({ u with roles := u.roles.erase (some r) } : EUser).id then
          { u with roles := u.roles.erase (some r) } else v) :=
    putUser_users_of_mem e _ hany
  refine ⟨?_, ?_, ?_, ?_, ?_, ?_, ?_, ?_, ?_, ?_, ?_, ?_⟩
  · rw [husers1]
    rw [map_map_update_of_agree e.users _ EUser.toP ?_]
    · exact hs.users_eq
    · intro v hv hvid
      have hvu : v = u := List.inj_on_of_nodup_map hs.uid_nodup hv humem hvid
      subst hvu
      rfl
  · rw [putUser_roles_eq]
    exact hs.roles_eq
  · rw [putUser_groups_eq]
    exact hs.groups_eq
  · rw [husers1]
    rw [map_map_update_of_agree e.users _ (fun v => v.id) (fun v hv hvid => hvid)]
    exact hs.uid_nodup
  · rw [putUser_roles_eq]
    exact hs.rid_nodup
  · rw [putUser_groups_eq]
    exact hs.gid_nodup
  · -- roles_wf
    intro v' hv' x hx
    rw [putUser_roles_eq]
    rw [husers1] at hv'
    rcases mem_update_form _ _ _ hv' with h1 | ⟨h1, _⟩
    · subst h1
      exact hs.roles_wf u humem x (List.mem_of_mem_erase hx)
    · exact hs.roles_wf v' h1 x hx
  · -- groups_wf
    intro v' hv' x hx
    rw [putUser_groups_eq]
    rw [husers1] at hv'
    rcases mem_update_form _ _ _ hv' with h1 | ⟨h1, _⟩
    · subst h1
      exact hs.groups_wf u humem x hx
    · exact hs.groups_wf v' h1 x hx
  · -- roles_nodup
    intro v' hv'
    rw [husers1] at hv'
    rcases mem_update_form _ _ _ hv' with h1 | ⟨h1, _⟩
    · subst h1
      exact List.Nodup.erase _ (hs.roles_nodup u humem)
    · exact hs.roles_nodup v' h1
  · -- groups_nodup
    intro v' hv'
    rw [husers1] at hv'
    rcases mem_update_form _ _ _ hv' with h1 | ⟨h1, _⟩
    · subst h1
      exact hs.groups_nodup u humem
    · exact hs.groups_nodup v' h1
  · -- rmem
    intro uid rid
    rw [husers1]
    constructor
    · rintro ⟨w, hw, hwu, hwr⟩
      rw [List.mem_filter] at hw
      obtain ⟨hwmem, hwpred⟩ := hw
      obtain ⟨v, hv, hvid, r1, hr1, hr1id⟩ := (hs.rmem uid rid).mp ⟨w, hwmem, hwu, hwr⟩
      by_cases hc : v.id = u.id
      · have hvu : v = u := List.inj_on_of_nodup_map hs.uid_nodup hv humem hc
        subst hvu
        have hner : r1 ≠ r := by
          intro he
          have hb : (w.user == v.id && w.role == r.id) = true :=
            Bool.and_eq_true_iff.mpr ⟨beq_iff_eq.mpr (hwu.trans hvid.symm),
              beq_iff_eq.mpr (hwr.trans (hr1id.symm.trans (congrArg Role.id he)))⟩
          simp [hb] at hwpred
        refine ⟨_, update_mem e.users v _ hv rfl, hvid, r1, ?_, hr1id⟩
        exact ((hs.roles_nodup v hv).mem_erase_iff).mpr
          ⟨fun hsome => hner (Option.some.inj hsome), hr1⟩
      · exact ⟨v, mem_update_of_ne _ _ _ hv hc, hvid, r1, hr1, hr1id⟩
    · rintro ⟨v', hv', hvid', r1, hr1, hr1id⟩
      rcases mem_update_form _ _ _ hv' with h1 | ⟨h1, hne⟩
      · subst h1
        obtain ⟨hner, hr1mem⟩ := ((hs.roles_nodup u humem).mem_erase_iff).mp hr1
        have hr1tab : r1 ∈ e.roles := by
          obtain ⟨r2, hr2m, hx⟩ := hs.roles_wf u humem _ hr1mem
          injection hx with hx
          subst hx
          exact hr2m
        obtain ⟨w, hw, hwu, hwr⟩ := (hs.rmem uid rid).mpr
          ⟨u, humem, hvid', r1, hr1mem, hr1id⟩
        have hpred : (!(w.user == u.id && w.role == r.id)) = true := by
          cases hb : (w.user == u.id && w.role == r.id) with
          | false => simp
          | true =>
            exfalso
            rw [Bool.and_eq_true, beq_iff_eq, beq_iff_eq] at hb
            have hre : r1 = r :=
              List.inj_on_of_nodup_map hs.rid_nodup hr1tab hrmem
                (hr1id.trans (hwr.symm.trans hb.2))
            exact hner (congrArg some hre)
        exact ⟨w, List.mem_filter.mpr ⟨hw, hpred⟩, hwu, hwr⟩
      · obtain ⟨w, hw, hwu, hwr⟩ := (hs.rmem uid rid).mpr
          ⟨v', h1, hvid', r1, hr1, hr1id⟩
        have hpred : (!(w.user == u.id && w.role == r.id)) = true := by
          cases hb : (w.user == u.id && w.role == r.id) with
          | false => simp
          | true =>
            exfalso
            rw [Bool.and_eq_true, beq_iff_eq, beq_iff_eq] at hb
            exact hne ((hvid'.trans hwu.symm).trans hb.1)
        exact ⟨w, List.mem_filter.mpr ⟨hw, hpred⟩, hwu, hwr⟩
  · -- gmem
    intro uid gid
    rw [husers1]
    constructor
    · intro hL
      obtain ⟨v, hv, hvid, g1, hg1, hg1id⟩ := (hs.gmem uid gid).mp hL
      by_cases hc : v.id = u.id
      · have hvu : v = u := List.inj_on_of_nodup_map hs.uid_nodup hv humem hc
        subst hvu
        exact ⟨_, update_mem e.users v _ hv rfl, hvid, g1, hg1, hg1id⟩
      · exact ⟨v, mem_update_of_ne _ _ _ hv hc, hvid, g1, hg1, hg1id⟩
    · rintro ⟨v', hv', hvid', g1, hg1, hg1id⟩
      rcases mem_update_form _ _ _ hv' with h1 | ⟨h1, _⟩
      · subst h1
        exact (hs.gmem uid gid).mpr ⟨u, humem, hvid', g1, hg1, hg1id⟩
      · exact (hs.gmem uid gid).mpr ⟨v', h1, hvid', g1, hg1, hg1id⟩

/-- Appending a fresh group reference corresponds to appending a link
row, mirror of `sim_insert_role`. -/
lemma sim_insert_group (e : EState) (p : PState) (hs : Sim e p)
    (u : EUser) (g : Group) (humem : u ∈ e.users) (hgmem : g ∈ e.groups)
    (habs : some g ∉ u.groups) :
    Sim (e.putUser { u with groups := u.groups ++ [some g] })
        { p with userGroups := p.userGroups ++ [⟨u.id, g.id⟩] } := by
  have hany : e.users.any
      (fun v => v.id == ({ u with groups := u.groups ++ [some g] } : EUser).id) = true :=
    List.any_eq_true.mpr ⟨u, humem, by simp⟩
  have husers1 : (e.putUser { u with groups := u.groups ++ [some g] }).users =
      e.users.map (fun v =>
        if v.id == ({ u with groups := u.groups ++ [some g] } : EUser).id then
          { u with groups := u.groups ++ [some g] } else v) :=
    putUser_users_of_mem e _ hany
  refine ⟨?_, ?_, ?_, ?_, ?_, ?_, ?_, ?_, ?_, ?_, ?_, ?_⟩
  · rw [husers1]
    rw [map_map_update_of_agree e.users _ EUser.toP ?_]
    · exact hs.users_eq
    · intro v hv hvid
      have hvu : v = u := List.inj_on_of_nodup_map hs.uid_nodup hv humem hvid
      subst hvu
      rfl
  · rw [putUser_roles_eq]
    exact hs.roles_eq
  · rw [putUser_groups_eq]
    exact hs.groups_eq
  · rw [husers1]
    rw [map_map_update_of_agree e.users _ (fun v => v.id) (fun v hv hvid => hvid)]
    exact hs.uid_nodup
  · rw [putUser_roles_eq]
    exact hs.rid_nodup
  · rw [putUser_groups_eq]
    exact hs.gid_nodup
  · -- roles_wf
    intro v' hv' x hx
    rw [putUser_roles_eq]
    rw [husers1] at hv'
    rcases mem_update_form _ _ _ hv' with h1 | ⟨h1, _⟩
    · subst h1
      exact hs.roles_wf u humem x hx
    · exact hs.roles_wf v' h1 x hx
  · -- groups_wf
    intro v' hv' x hx
    rw [putUser_groups_eq]
    rw [husers1] at hv'
    rcases mem_update_form _ _ _ hv' with h1 | ⟨h1, _⟩
    · subst h1
      rcases List.mem_append.mp hx with h2 | h2
      · exact hs.groups_wf u humem x h2
      · rw [List.mem_singleton] at h2
        exact ⟨g, hgmem, h2⟩
    · exact hs.groups_wf v' h1 x hx
  · -- roles_nodup
    intro v' hv'
    rw [husers1] at hv'
    rcases mem_update_form _ _ _ hv' with h1 | ⟨h1, _⟩
    · subst h1
      exact hs.roles_nodup u humem
    · exact hs.roles_nodup v' h1
  · -- groups_nodup
    intro v' hv'
    rw [husers1] at hv'
    rcases mem_update_form _ _ _ hv' with h1 | ⟨h1, _⟩
    · subst h1
      refine List.Nodup.append (hs.groups_nodup u humem) (List.nodup_singleton _) ?_
      intro a ha hb
      rw [List.mem_singleton] at hb
      subst hb
      exact habs ha
    · exact hs.groups_nodup v' h1
  · -- rmem
    intro uid rid
    rw [husers1]
    constructor
    · intro hL
      obtain ⟨v, hv, hvid, r1, hr1, hr1id⟩ := (hs.rmem uid rid).mp hL
      by_cases hc : v.id = u.id
      · have hvu : v = u := List.inj_on_of_nodup_map hs.uid_nodup hv humem hc
        subst hvu
        exact ⟨_, update_mem e.users v _ hv rfl, hvid, r1, hr1, hr1id⟩
      · exact ⟨v, mem_update_of_ne _ _ _ hv hc, hvid, r1, hr1, hr1id⟩
    · rintro ⟨v', hv', hvid', r1, hr1, hr1id⟩
      rcases mem_update_form _ _ _ hv' with h1 | ⟨h1, _⟩
      · subst h1
        exact (hs.rmem uid rid).mpr ⟨u, humem, hvid', r1, hr1, hr1id⟩
      · exact (hs.rmem uid rid).mpr ⟨v', h1, hvid', r1, hr1, hr1id⟩
  · -- gmem
    intro uid gid
    rw [husers1]
    constructor
    · rintro ⟨w, hw, hwu, hwg⟩
      rcases List.mem_append.mp hw with hw1 | hw1
      · obtain ⟨v, hv, hvid, g1, hg1, hg1id⟩ := (hs.gmem uid gid).mp ⟨w, hw1, hwu, hwg⟩
        by_cases hc : v.id = u.id
        · have hvu : v = u := List.inj_on_of_nodup_map hs.uid_nodup hv humem hc
          subst hvu
          exact ⟨_, update_mem e.users v _ hv rfl, hvid, g1,
            List.mem_append_left _ hg1, hg1id⟩
        · exact ⟨v, mem_update_of_ne _ _ _ hv hc, hvid, g1, hg1, hg1id⟩
      · rw [List.mem_singleton] at hw1
        subst hw1
        exact ⟨_, update_mem e.users u _ humem rfl, hwu, g,
          List.mem_append_right _ (List.mem_singleton.mpr rfl), hwg⟩
    · rintro ⟨v', hv', hvid', g1, hg1, hg1id⟩
      rcases mem_update_form _ _ _ hv' with h1 | ⟨h1, _⟩
      · subst h1
        rcases List.mem_append.mp hg1 with h2 | h2
        · obtain ⟨w, hw, hwp⟩ := (hs.gmem uid gid).mpr ⟨u, humem, hvid', g1, h2, hg1id⟩
          exact ⟨w, List.mem_append_left _ hw, hwp⟩
        · rw [List.mem_singleton] at h2
          injection h2 with h2
          subst h2
          exact ⟨⟨u.id, g1.id⟩, List.mem_append_right _ (List.mem_singleton.mpr rfl),
            hvid', hg1id⟩
      · obtain ⟨w, hw, hwp⟩ := (hs.gmem uid gid).mpr ⟨v', h1, hvid', g1, hg1, hg1id⟩
        exact ⟨w, List.mem_append_left _ hw, hwp⟩

/-- Erasing a held group reference corresponds to deleting the matching
link rows, mirror of `sim_erase_role`. -/
lemma sim_erase_group (e : EState) (p : PState) (hs : Sim e p)
    (u : EUser) (g : Group) (humem : u ∈ e.users) (hgmem : g ∈ e.groups)
    (hpres : some g ∈ u.groups) :
    Sim (e.putUser { u with groups := u.groups.erase (some g) })
        { p with userGroups :=
            p.userGroups.filter (fun w => !(w.user == u.id && w.group == g.id)) } := by
  have hany : e.users.any
      (fun v => v.id == ({ u with groups := u.groups.erase (some g) } : EUser).id) = true :=
    List.any_eq_true.mpr ⟨u, humem, by simp⟩
  have husers1 : (e.putUser { u with groups := u.groups.erase (some g) }).users =
      e.users.map (fun v =>
        if v.id == ({ u with groups := u.groups.erase (some g) } : EUser).id then
          { u with groups := u.groups.erase (some g) } else v) :=
    putUser_users_of_mem e _ hany
  refine ⟨?_, ?_, ?_, ?_, ?_, ?_, ?_, ?_, ?_, ?_, ?_, ?_⟩
  · rw [husers1]
    rw [map_map_update_of_agree e.users _ EUser.toP ?_]
    · exact hs.users_eq
    · intro v hv hvid
      have hvu : v = u := List.inj_on_of_nodup_map hs.uid_nodup hv humem hvid
      subst hvu
      rfl
  · rw [putUser_roles_eq]
    exact hs.roles_eq
  · rw [putUser_groups_eq]
    exact hs.groups_eq
  · rw [husers1]
    rw [map_map_update_of_agree e.users _ (fun v => v.id) (fun v hv hvid => hvid)]
    exact hs.uid_nodup
  · rw [putUser_roles_eq]
    exact hs.rid_nodup
  · rw [putUser_groups_eq]
    exact hs.gid_nodup
  · -- roles_wf
    intro v' hv' x hx
    rw [putUser_roles_eq]
    rw [husers1] at hv'
    rcases mem_update_form _ _ _ hv' with h1 | ⟨h1, _⟩
    · subst h1
      exact hs.roles_wf u humem x hx
    · exact hs.roles_wf v' h1 x hx
  · -- groups_wf
    intro v' hv' x hx
    rw [putUser_groups_eq]
    rw [husers1] at hv'
    rcases mem_update_form _ _ _ hv' with h1 | ⟨h1, _⟩
    · subst h1
      exact hs.groups_wf u humem x (List.mem_of_mem_erase hx)
    · exact hs.groups_wf v' h1 x hx
  · -- roles_nodup
    intro v' hv'
    rw [husers1] at hv'
    rcases mem_update_form _ _ _ hv' with h1 | ⟨h1, _⟩
    · subst h1
      exact hs.roles_nodup u humem
    · exact hs.roles_nodup v' h1
  · -- groups_nodup
    intro v' hv'
    rw [husers1] at hv'
    rcases mem_update_form _ _ _ hv' with h1 | ⟨h1, _⟩
    · subst h1
      exact List.Nodup.erase _ (hs.groups_nodup u humem)
    · exact hs.groups_nodup v' h1
  · -- rmem
    intro uid rid
    rw [husers1]
    constructor
    · intro hL
      obtain ⟨v, hv, hvid, r1, hr1, hr1id⟩ := (hs.rmem uid rid).mp hL
      by_cases hc : v.id = u.id
      · have hvu : v = u := List.inj_on_of_nodup_map hs.uid_nodup hv humem hc
        subst hvu
        exact ⟨_, update_mem e.users v _ hv rfl, hvid, r1, hr1, hr1id⟩
      · exact ⟨v, mem_update_of_ne _ _ _ hv hc, hvid, r1, hr1, hr1id⟩
    · rintro ⟨v', hv', hvid', r1, hr1, hr1id⟩
      rcases mem_update_form _ _ _ hv' with h1 | ⟨h1, _⟩
      · subst h1
        exact (hs.rmem uid rid).mpr ⟨u, humem, hvid', r1, hr1, hr1id⟩
      · exact (hs.rmem uid rid).mpr ⟨v', h1, hvid', r1, hr1, hr1id⟩
  · -- gmem
    intro uid gid
    rw [husers1]
    constructor
    · rintro ⟨w, hw, hwu, hwg⟩
      rw [List.mem_filter] at hw
      obtain ⟨hwmem, hwpred⟩ := hw
      obtain ⟨v, hv, hvid, g1, hg1, hg1id⟩ := (hs.gmem uid gid).mp ⟨w, hwmem, hwu, hwg⟩
      by_cases hc : v.id = u.id
      · have hvu : v = u := List.inj_on_of_nodup_map hs.uid_nodup hv humem hc
        subst hvu
        have hner : g1 ≠ g := by
          intro he
          have hb : (w.user == v.id && w.group == g.id) = true :=
            Bool.and_eq_true_iff.mpr ⟨beq_iff_eq.mpr (hwu.trans hvid.symm),
              beq_iff_eq.mpr (hwg.trans (hg1id.symm.trans (congrArg Group.id he)))⟩
          simp [hb] at hwpred
        refine ⟨_, update_mem e.users v _ hv rfl, hvid, g1, ?_, hg1id⟩
        exact ((hs.groups_nodup v hv).mem_erase_iff).mpr
          ⟨fun hsome => hner (Option.some.inj hsome), hg1⟩
      · exact ⟨v, mem_update_of_ne _ _ _ hv hc, hvid, g1, hg1, hg1id⟩
    · rintro ⟨v', hv', hvid', g1, hg1, hg1id⟩
      rcases mem_update_form _ _ _ hv' with h1 | ⟨h1, hne⟩
      · subst h1
        obtain ⟨hner, hg1mem⟩ := ((hs.groups_nodup u humem).mem_erase_iff).mp hg1
        have hg1tab : g1 ∈ e.groups := by
          obtain ⟨g2, hg2m, hx⟩ := hs.groups_wf u humem _ hg1mem
          injection hx with hx
          subst hx
          exact hg2m
        obtain ⟨w, hw, hwu, hwg⟩ := (hs.gmem uid gid).mpr
          ⟨u, humem, hvid', g1, hg1mem, hg1id⟩
        have hpred : (!(w.user == u.id && w.group == g.id)) = true := by
          cases hb : (w.user == u.id && w.group == g.id) with
          | false => simp
          | true =>
            exfalso
            rw [Bool.and_eq_true, beq_iff_eq, beq_iff_eq] at hb
            have hge : g1 = g :=
              List.inj_on_of_nodup_map hs.gid_nodup hg1tab hgmem
                (hg1id.trans (hwg.symm.trans hb.2))
            exact hner (congrArg some hge)
        exact ⟨w, List.mem_filter.mpr ⟨hw, hpred⟩, hwu, hwg⟩
      · obtain ⟨w, hw, hwu, hwg⟩ := (hs.gmem uid gid).mpr
          ⟨v', h1, hvid', g1, hg1, hg1id⟩
        have hpred : (!(w.user == u.id && w.group == g.id)) = true := by
          cases hb : (w.user == u.id && w.group == g.id) with
          | false => simp
          | true =>
            exfalso
            rw [Bool.and_eq_true, beq_iff_eq, beq_iff_eq] at hb
            exact hne ((hvid'.trans hwu.symm).trans hb.1)
        exact ⟨w, List.mem_filter.mpr ⟨hw, hpred⟩, hwu, hwg⟩

/-- One membership operation with resolvable references runs without
error on both backends, returns the same boolean, and preserves the
simulation; emails and both scalar tables are untouched. -/
lemma sim_step (e : EState) (p : PState) (op : MemOp) (hs : Sim e p)
    (hres : op.resolvable e) :
    ∃ b e1 p1, stepE e op = .ok (b, e1) ∧ stepP p op = .ok (b, p1) ∧ Sim e1 p1 ∧
      (∀ s, (e1.find_user s).isSome = (e.find_user s).isSome) ∧
      e1.roles = e.roles ∧ e1.groups = e.groups := by
  cases op with
  | addRole em nm =>
    obtain ⟨hru, hrr⟩ := hres
    obtain ⟨u, hu⟩ := Option.isSome_iff_exists.mp hru
    obtain ⟨r, hr⟩ := Option.isSome_iff_exists.mp hrr
    have hu2 : e.users.find? (fun v => v.email == em) = some u := hu
    have hr2 : e.roles.find? (fun v => v.name == nm) = some r := hr
    have humem : u ∈ e.users := List.mem_of_find?_eq_some hu2
    have hrmem : r ∈ e.roles := List.mem_of_find?_eq_some hr2
    have hpu : p.find_user em = some u.toP := by
      rw [find_user_toP e p hs.users_eq, hu]
      rfl
    have hpr : p.find_role nm = some r := by
      unfold PState.find_role
      rw [← hs.roles_eq]
      exact hr2
    have hiff : (∃ w ∈ p.userRoles, w.user = u.id ∧ w.role = r.id) ↔ some r ∈ u.roles := by
      rw [hs.rmem u.id r.id]
      constructor
      · rintro ⟨u1, hu1, hid1, r1, hr1mem, hr1id⟩
        have he1 : u1 = u := List.inj_on_of_nodup_map hs.uid_nodup hu1 humem hid1
        subst he1
        obtain ⟨r2, hr2m, hx⟩ := hs.roles_wf u1 hu1 _ hr1mem
        injection hx with hx
        subst hx
        have he2 : r1 = r := List.inj_on_of_nodup_map hs.rid_nodup hr2m hrmem hr1id
        exact he2 ▸ hr1mem
      · intro hmm2
        exact ⟨u, humem, rfl, r, hmm2, rfl⟩
    by_cases hmm : some r ∈ u.roles
    · have hT : p.userRoles.any (fun w => w.user == u.id && w.role == r.id) = true := by
        rw [List.any_eq_true]
        obtain ⟨w, hw, hwp⟩ := hiff.mpr hmm
        exact ⟨w, hw, Bool.and_eq_true_iff.mpr
          ⟨beq_iff_eq.mpr hwp.1, beq_iff_eq.mpr hwp.2⟩⟩
      refine ⟨false, e, p, ?_, ?_, hs, fun s => rfl, rfl, rfl⟩
      · simp [stepE, EState.add_role_to_user, EState.resolveUser, EState.resolveRole,
          hu, hr, hmm, Except.map]
      · simp [stepP, PState.add_role_to_user, PState.resolveUser, PState.resolveRole,
          hpu, hpr, hT, toP_id]
    · have hF : p.userRoles.any (fun w => w.user == u.id && w.role == r.id) = false := by
        rw [Bool.eq_false_iff]
        intro hT
        obtain ⟨w, hw, hwp⟩ := List.any_eq_true.mp hT
        rw [Bool.and_eq_true, beq_iff_eq, beq_iff_eq] at hwp
        exact hmm (hiff.mp ⟨w, hw, hwp.1, hwp.2⟩)
      refine ⟨true, e.putUser { u with roles := u.roles ++ [some r] },
        { p with userRoles := p.userRoles ++ [⟨u.id, r.id⟩] }, ?_, ?_, ?_, ?_, ?_, ?_⟩
      · simp [stepE, EState.add_role_to_user, EState.resolveUser, EState.resolveRole,
          hu, hr, hmm, Except.map]
      · simp [stepP, PState.add_role_to_user, PState.resolveUser, PState.resolveRole,
          hpu, hpr, hF, toP_id]
      · exact sim_insert_role e p hs u r humem hrmem hmm
      · exact putUser_find_isSome e u _ humem hs.uid_nodup rfl rfl
      · exact putUser_roles_eq e _
      · exact putUser_groups_eq e _
  | remRole em nm =>
    obtain ⟨hru, hrr⟩ := hres
    obtain ⟨u, hu⟩ := Option.isSome_iff_exists.mp hru
    obtain ⟨r, hr⟩ := Option.isSome_iff_exists.mp hrr
    have hu2 : e.users.find? (fun v => v.email == em) = some u := hu
    have hr2 : e.roles.find? (fun v => v.name == nm) = some r := hr
    have humem : u ∈ e.users := List.mem_of_find?_eq_some hu2
    have hrmem : r ∈ e.roles := List.mem_of_find?_eq_some hr2
    have hpu : p.find_user em = some u.toP := by
      rw [find_user_toP e p hs.users_eq, hu]
      rfl
    have hpr : p.find_role nm = some r := by
      unfold PState.find_role
      rw [← hs.roles_eq]
      exact hr2
    have hiff : (∃ w ∈ p.userRoles, w.user = u.id ∧ w.role = r.id) ↔ some r ∈ u.roles := by
      rw [hs.rmem u.id r.id]
      constructor
      · rintro ⟨u1, hu1, hid1, r1, hr1mem, hr1id⟩
        have he1 : u1 = u := List.inj_on_of_nodup_map hs.uid_nodup hu1 humem hid1
        subst he1
        obtain ⟨r2, hr2m, hx⟩ := hs.roles_wf u1 hu1 _ hr1mem
        injection hx with hx
        subst hx
        have he2 : r1 = r := List.inj_on_of_nodup_map hs.rid_nodup hr2m hrmem hr1id
        exact he2 ▸ hr1mem
      · intro hmm2
        exact ⟨u, humem, rfl, r, hmm2, rfl⟩
    by_cases hmm : some r ∈ u.roles
    · have hT : p.userRoles.any (PState.rowMatchesUR (some u.toP) (some r)) = true := by
        rw [List.any_eq_true]
        obtain ⟨w, hw, hwp⟩ := hiff.mpr hmm
        refine ⟨w, hw, ?_⟩
        show (w.user == u.toP.id && w.role == r.id) = true
        exact Bool.and_eq_true_iff.mpr ⟨beq_iff_eq.mpr hwp.1, beq_iff_eq.mpr hwp.2⟩
      refine ⟨true, e.putUser { u with roles := u.roles.erase (some r) },
        { p with userRoles :=
            p.userRoles.filter (fun w => !PState.rowMatchesUR (some u.toP) (some r) w) },
        ?_, ?_, ?_, ?_, ?_, ?_⟩
      · simp [stepE, EState.remove_role_from_user, EState.resolveUser, EState.resolveRole,
          hu, hr, hmm, Except.map]
      · simp [stepP, PState.remove_role_from_user, PState.resolveUser, PState.resolveRole,
          hpu, hpr, hT]
      · exact sim_erase_role e p hs u r humem hrmem hmm
      · exact putUser_find_isSome e u _ humem hs.uid_nodup rfl rfl
      · exact putUser_roles_eq e _
      · exact putUser_groups_eq e _
    · have hF : p.userRoles.any (PState.rowMatchesUR (some u.toP) (some r)) = false := by
        rw [Bool.eq_false_iff]
        intro hT
        obtain ⟨w, hw, hwp⟩ := List.any_eq_true.mp hT
        have hwp2 : (w.user == u.toP.id && w.role == r.id) = true := hwp
        rw [Bool.and_eq_true, beq_iff_eq, beq_iff_eq] at hwp2
        exact hmm (hiff.mp ⟨w, hw, hwp2.1, hwp2.2⟩)
      refine ⟨false, e, p, ?_, ?_, hs, fun s => rfl, rfl, rfl⟩
      · simp [stepE, EState.remove_role_from_user, EState.resolveUser, EState.resolveRole,
          hu, hr, hmm, Except.map]
      · simp [stepP, PState.remove_role_from_user, PState.resolveUser, PState.resolveRole,
          hpu, hpr, hF]
  | addGroup em gn =>
    obtain ⟨hru, hrg⟩ := hres
    obtain ⟨u, hu⟩ := Option.isSome_iff_exists.mp hru
    obtain ⟨g, hg⟩ := Option.isSome_iff_exists.mp hrg
    have hu2 : e.users.find? (fun v => v.email == em) = some u := hu
    have hg2 : e.groups.find? (fun v => v.name == gn) = some g := hg
    have humem : u ∈ e.users := List.mem_of_find?_eq_some hu2
    have hgmem : g ∈ e.groups := List.mem_of_find?_eq_some hg2
    have hpu : p.find_user em = some u.toP := by
      rw [find_user_toP e p hs.users_eq, hu]
      rfl
    have hpg : p.find_group gn = some g := by
      unfold PState.find_group
      rw [← hs.groups_eq]
      exact hg2
    have hiff : (∃ w ∈ p.userGroups, w.user = u.id ∧ w.group = g.id) ↔ some g ∈ u.groups := by
      rw [hs.gmem u.id g.id]
      constructor
      · rintro ⟨u1, hu1, hid1, g1, hg1mem, hg1id⟩
        have he1 : u1 = u := List.inj_on_of_nodup_map hs.uid_nodup hu1 humem hid1
        subst he1
        obtain ⟨g2, hg2m, hx⟩ := hs.groups_wf u1 hu1 _ hg1mem
        injection hx with hx
        subst hx
        have he2 : g1 = g := List.inj_on_of_nodup_map hs.gid_nodup hg2m hgmem hg1id
        exact he2 ▸ hg1mem
      · intro hmm2
        exact ⟨u, humem, rfl, g, hmm2, rfl⟩
    by_cases hmm : some g ∈ u.groups
    · have hT : p.userGroups.any (fun w => w.user == u.id && w.group == g.id) = true := by
        rw [List.any_eq_true]
        obtain ⟨w, hw, hwp⟩ := hiff.mpr hmm
        exact ⟨w, hw, Bool.and_eq_true_iff.mpr
          ⟨beq_iff_eq.mpr hwp.1, beq_iff_eq.mpr hwp.2⟩⟩
      refine ⟨false, e, p, ?_, ?_, hs, fun s => rfl, rfl, rfl⟩
      · simp [stepE, EState.add_user_to_group, EState.resolveUser, EState.resolveGroup,
          hu, hg, hmm, Except.map]
      · simp [stepP, PState.add_user_to_group, PState.resolveUser, PState.resolveGroup,
          hpu, hpg, hT, toP_id]
    · have hF : p.userGroups.any (fun w => w.user == u.id && w.group == g.id) = false := by
        rw [Bool.eq_false_iff]
        intro hT
        obtain ⟨w, hw, hwp⟩ := List.any_eq_true.mp hT
        rw [Bool.and_eq_true, beq_iff_eq, beq_iff_eq] at hwp
        exact hmm (hiff.mp ⟨w, hw, hwp.1, hwp.2⟩)
      refine ⟨true, e.putUser { u with groups := u.groups ++ [some g] },
        { p with userGroups := p.userGroups ++ [⟨u.id, g.id⟩] }, ?_, ?_, ?_, ?_, ?_, ?_⟩
      · simp [stepE, EState.add_user_to_group, EState.resolveUser, EState.resolveGroup,
          hu, hg, hmm, Except.map]
      · simp [stepP, PState.add_user_to_group, PState.resolveUser, PState.resolveGroup,
          hpu, hpg, hF, toP_id]
      · exact sim_insert_group e p hs u g humem hgmem hmm
      · exact putUser_find_isSome e u _ humem hs.uid_nodup rfl rfl
      · exact putUser_roles_eq e _
      · exact putUser_groups_eq e _
  | remGroup em gn =>
    obtain ⟨hru, hrg⟩ := hres
    obtain ⟨u, hu⟩ := Option.isSome_iff_exists.mp hru
    obtain ⟨g, hg⟩ := Option.isSome_iff_exists.mp hrg
    have hu2 : e.users.find? (fun v => v.email == em) = some u := hu
    have hg2 : e.groups.find? (fun v => v.name == gn) = some g := hg
    have humem : u ∈ e.users := List.mem_of_find?_eq_some hu2
    have hgmem : g ∈ e.groups := List.mem_of_find?_eq_some hg2
    have hpu : p.find_user em = some u.toP := by
      rw [find_user_toP e p hs.users_eq, hu]
      rfl
    have hpg : p.find_group gn = some g := by
      unfold PState.find_group
      rw [← hs.groups_eq]
      exact hg2
    have hiff : (∃ w ∈ p.userGroups, w.user = u.id ∧ w.group = g.id) ↔ some g ∈ u.groups := by
      rw [hs.gmem u.id g.id]
      constructor
      · rintro ⟨u1, hu1, hid1, g1, hg1mem, hg1id⟩
        have he1 : u1 = u := List.inj_on_of_nodup_map hs.uid_nodup hu1 humem hid1
        subst he1
        obtain ⟨g2, hg2m, hx⟩ := hs.groups_wf u1 hu1 _ hg1mem
        injection hx with hx
        subst hx
        have he2 : g1 = g := List.inj_on_of_nodup_map hs.gid_nodup hg2m hgmem hg1id
        exact he2 ▸ hg1mem
      · intro hmm2
        exact ⟨u, humem, rfl, g, hmm2, rfl⟩
    by_cases hmm : some g ∈ u.groups
    · have hT : p.userGroups.any (PState.rowMatchesUG (some u.toP) (some g)) = true := by
        rw [List.any_eq_true]
        obtain ⟨w, hw, hwp⟩ := hiff.mpr hmm
        refine ⟨w, hw, ?_⟩
        show (w.user == u.toP.id && w.group == g.id) = true
        exact Bool.and_eq_true_iff.mpr ⟨beq_iff_eq.mpr hwp.1, beq_iff_eq.mpr hwp.2⟩
      refine ⟨true, e.putUser { u with groups := u.groups.erase (some g) },
        { p with userGroups :=
            p.userGroups.filter (fun w => !PState.rowMatchesUG (some u.toP) (some g) w) },
        ?_, ?_, ?_, ?_, ?_, ?_⟩
      · simp [stepE, EState.remove_user_from_group, EState.resolveUser, EState.resolveGroup,
          hu, hg, hmm, Except.map]
      · simp [stepP, PState.remove_user_from_group, PState.resolveUser, PState.resolveGroup,
          hpu, hpg, hT]
      · exact sim_erase_group e p hs u g humem hgmem hmm
      · exact putUser_find_isSome e u _ humem hs.uid_nodup rfl rfl
      · exact putUser_roles_eq e _
      · exact putUser_groups_eq e _
    · have hF : p.userGroups.any (PState.rowMatchesUG (some u.toP) (some g)) = false := by
        rw [Bool.eq_false_iff]
        intro hT
        obtain ⟨w, hw, hwp⟩ := List.any_eq_true.mp hT
        have hwp2 : (w.user == u.toP.id && w.group == g.id) = true := hwp
        rw [Bool.and_eq_true, beq_iff_eq, beq_iff_eq] at hwp2
        exact hmm (hiff.mp ⟨w, hw, hwp2.1, hwp2.2⟩)
      refine ⟨false, e, p, ?_, ?_, hs, fun s => rfl, rfl, rfl⟩
      · simp [stepE, EState.remove_user_from_group, EState.resolveUser, EState.resolveGroup,
          hu, hg, hmm, Except.map]
      · simp [stepP, PState.remove_user_from_group, PState.resolveUser, PState.resolveGroup,
          hpu, hpg, hF]

/-- Resolvability of an operation depends only on the email column and the
two scalar tables. -/
lemma resolvable_congr (e1 e : EState)
    (hfu : ∀ s, (e1.find_user s).isSome = (e.find_user s).isSome)
    (hr : e1.roles = e.roles) (hg : e1.groups = e.groups) (op : MemOp) :
    op.resolvable e → op.resolvable e1 := by
  cases op with
  | addRole em n =>
    intro h
    refine ⟨by rw [hfu em]; exact h.1, ?_⟩
    unfold EState.find_role
    rw [hr]
    exact h.2
  | remRole em n =>
    intro h
    refine ⟨by rw [hfu em]; exact h.1, ?_⟩
    unfold EState.find_role
    rw [hr]
    exact h.2
  | addGroup em n =>
    intro h
    refine ⟨by rw [hfu em]; exact h.1, ?_⟩
    unfold EState.find_group
    rw [hg]
    exact h.2
  | remGroup em n =>
    intro h
    refine ⟨by rw [hfu em]; exact h.1, ?_⟩
    unfold EState.find_group
    rw [hg]
    exact h.2

/-- Whole-run simulation: same booleans, corresponding final states. -/
lemma sim_run (ops : List MemOp) : ∀ e p, Sim e p →
    (∀ op ∈ ops, op.resolvable e) →
    ∃ bs e1 p1, runE e ops = .ok (bs, e1) ∧ runP p ops = .ok (bs, p1) ∧ Sim e1 p1 := by
  induction ops with
  | nil =>
    intro e p hs _
    exact ⟨[], e, p, rfl, rfl, hs⟩
  | cons op ops ih =>
    intro e p hs hres
    obtain ⟨b, e1, p1, he, hp, hs1, hfu, hr, hg⟩ :=
      sim_step e p op hs (hres op (List.mem_cons_self op ops))
    obtain ⟨bs, e2, p2, he2, hp2, hs2⟩ := ih e1 p1 hs1
      (fun o ho => resolvable_congr e1 e hfu hr hg o (hres o (List.mem_cons_of_mem op ho)))
    refine ⟨b :: bs, e2, p2, ?_, ?_, hs2⟩
    · simp [runE, he, he2]
    · simp [runP, hp, hp2]

/-- **C4.** On both backends, adding a not-yet-assigned resolvable role to
a resolvable user twice with identical arguments succeeds (`true`) the
first time, reports no change (`false`) and leaves the store untouched
the second time, and the pair appears exactly once in the membership
relation afterwards. -/
theorem spec_C4_add_twice (st : EState) (pst : PState) (em nm : String)
    (u : EUser) (r : Role) (pu : PUser) (pr : Role)
    (hu : st.find_user em = some u) (hr : st.find_role nm = some r)
    (hfresh : some r ∉ u.roles)
    (hnodup : (st.users.map (fun v => v.id)).Nodup)
    (hpu : pst.find_user em = some pu) (hpr : pst.find_role nm = some pr)
    (hprow : pst.userRoles.countP (fun w => w.user == pu.id && w.role == pr.id) = 0) :
    ∃ st1,
      st.add_role_to_user (.email em) (.name nm) = .ok (true, st1, [.put]) ∧
      st1.add_role_to_user (.email em) (.name nm) = .ok (false, st1, []) ∧
      (∀ v ∈ st1.users, v.id = u.id → v.roles.count (some r) = 1) ∧
      ∃ p1,
        pst.add_role_to_user (.email em) (.name nm) = .ok (true, p1) ∧
        p1.add_role_to_user (.email em) (.name nm) = .ok (false, p1) ∧
        p1.userRoles.countP (fun w => w.user == pu.id && w.role == pr.id) = 1 := by
  have hu2 : st.users.find? (fun v => v.email == em) = some u := hu
  have humem : u ∈ st.users := List.mem_of_find?_eq_some hu2
  have huem := List.find?_some hu2
  refine ⟨st.putUser { u with roles := u.roles ++ [some r] }, ?_, ?_, ?_, ?_⟩
  · simp [EState.add_role_to_user, EState.resolveUser, EState.resolveRole, hu, hr, hfresh]
  · have hany : st.users.any
        (fun v => v.id == ({ u with roles := u.roles ++ [some r] } : EUser).id) = true := by
      rw [List.any_eq_true]
      exact ⟨u, humem, by simp⟩
    have hfind1 : (st.putUser { u with roles := u.roles ++ [some r] }).find_user em =
        some { u with roles := u.roles ++ [some r] } := by
      unfold EState.find_user
      rw [putUser_users_of_mem st _ hany]
      exact find?_map_update_of_nodup st.users _ u _ hu hnodup rfl huem
    have hr1 : (st.putUser { u with roles := u.roles ++ [some r] }).find_role nm = some r := by
      unfold EState.find_role
      rw [putUser_roles_eq]
      exact hr
    simp [EState.add_role_to_user, EState.resolveUser, EState.resolveRole, hfind1, hr1]
  · intro v hv hvid
    have hany : st.users.any
        (fun v => v.id == ({ u with roles := u.roles ++ [some r] } : EUser).id) = true := by
      rw [List.any_eq_true]
      exact ⟨u, humem, by simp⟩
    rw [putUser_users_of_mem st _ hany] at hv
    obtain ⟨w, hw, hfw⟩ := List.mem_map.mp hv
    by_cases hwid : (w.id == ({ u with roles := u.roles ++ [some r] } : EUser).id) = true
    · rw [if_pos hwid] at hfw
      subst hfw
      simp [List.count_append, List.count_eq_zero.mpr hfresh]
    · rw [if_neg hwid] at hfw
      subst hfw
      exact absurd (by simp [hvid]) hwid
  · have hanyP : pst.userRoles.any (fun w => w.user == pu.id && w.role == pr.id) = false := by
      rw [Bool.eq_false_iff]
      intro hcon
      obtain ⟨w, hw, hfw⟩ := List.any_eq_true.mp hcon
      exact (List.countP_eq_zero.mp hprow w hw) hfw
    refine ⟨{ pst with userRoles := pst.userRoles ++ [⟨pu.id, pr.id⟩] }, ?_, ?_, ?_⟩
    · simp [PState.add_role_to_user, PState.resolveUser, PState.resolveRole, hpu, hpr, hanyP]
    · have hpu1 : ({ pst with userRoles := pst.userRoles ++ [⟨pu.id, pr.id⟩] } : PState).find_user em =
          some pu := hpu
      have hpr1 : ({ pst with userRoles := pst.userRoles ++ [⟨pu.id, pr.id⟩] } : PState).find_role nm =
          some pr := hpr
      simp [PState.add_role_to_user, PState.resolveUser, PState.resolveRole, hpu1, hpr1]
    · simp [List.countP_append, hprow, List.countP_singleton]

/-- **C4, witness.** Adding `admin` to `alice` twice on `est0` / `pst0`. -/
theorem spec_C4_add_twice_witness :
    ∃ st1,
      EState.add_role_to_user est0 (.email "a@x.com") (.name "admin") =
        .ok (true, st1, [.put]) ∧
      EState.add_role_to_user st1 (.email "a@x.com") (.name "admin") =
        .ok (false, st1, []) ∧
      (∀ v ∈ st1.users, v.id = alice.id → v.roles.count (some adminRole) = 1) ∧
      ∃ p1,
        PState.add_role_to_user pst0 (.email "a@x.com") (.name "admin") = .ok (true, p1) ∧
        PState.add_role_to_user p1 (.email "a@x.com") (.name "admin") = .ok (false, p1) ∧
        p1.userRoles.countP
          (fun w => w.user == alice.toP.id && w.role == adminRole.id) = 1 :=
  spec_C4_add_twice est0 pst0 "a@x.com" "admin" alice adminRole alice.toP adminRole
    (by decide) (by decide) (by decide) (by decide) (by decide) (by decide) (by decide)

/-- The attribute scan returns `none` exactly when no user matches any
configured attribute case-insensitively. -/
lemma scanIdentityAttributes_eq_none (st : EState) (s : String)
    (attrs : List (EUser → String)) :
    st.scanIdentityAttributes attrs s = none ↔
      ∀ a ∈ attrs, ∀ u ∈ st.users, ¬ ilikeEq (a u) s := by
  induction attrs with
  | nil => simp [EState.scanIdentityAttributes]
  | cons a rest ih =>
    unfold EState.scanIdentityAttributes
    cases h : st.users.find? (fun u => ilikeEq (a u) s) with
    | some u =>
      have hu := List.mem_of_find?_eq_some h
      have hp := List.find?_some h
      refine iff_of_false (by simp) ?_
      intro hall
      exact (hall a (List.mem_cons_self a rest) u hu) hp
    | none =>
      have hnone := List.find?_eq_none.mp h
      rw [ih]
      simp only [List.forall_mem_cons]
      exact (and_iff_right fun u hu => hnone u hu).symm

/-- A user returned by the attribute scan is in the store and matches one
of the configured attributes case-insensitively. -/
lemma scanIdentityAttributes_eq_some (st : EState) (s : String)
    (attrs : List (EUser → String)) (u : EUser)
    (h : st.scanIdentityAttributes attrs s = some u) :
    u ∈ st.users ∧ ∃ a ∈ attrs, ilikeEq (a u) s := by
  induction attrs with
  | nil => simp [EState.scanIdentityAttributes] at h
  | cons a rest ih =>
    unfold EState.scanIdentityAttributes at h
    cases hf : st.users.find? (fun v => ilikeEq (a v) s) with
    | some v =>
      rw [hf] at h
      cases h
      refine ⟨List.mem_of_find?_eq_some hf, a, List.mem_cons_self a rest, ?_⟩
      have hp := List.find?_some hf
      exact hp
    | none =>
      rw [hf] at h
      obtain ⟨hmem, a1, ha1, hp⟩ := ih h
      exact ⟨hmem, a1, List.mem_cons_of_mem a ha1, hp⟩

/-- **C1, counterexample.** In `numericEmailStore` the identifier `"5"`
parses as numeric; the primary-key lookup misses (the only user has key
`1`), yet `get_user` returns `none` even though the attribute scan would
match the user with email `"5"`: contrary to the claim, a numeric miss
does not fall back to the identity attributes. -/
theorem spec_C1_counterexample :
    EState.get_user numericEmailStore emailAttr "5" = none ∧
    EState.scanIdentityAttributes numericEmailStore emailAttr "5" =
      some { id := 1, email := "5", active := true, roles := [], groups := [] } :=
  ⟨rfl, rfl⟩

/-- **C1, amended.** If the identifier parses as a numeric primary key,
`get_user` returns the primary-key lookup result directly — `none` on a
miss, with no fallback to the identity attributes; only a non-numeric
identifier is looked up via the configured identity attributes in order,
case-insensitively, returning the first match and `none` when nothing
matches. -/
theorem spec_C1_get_user_numeric_direct (st : EState)
    (attrs : List (EUser → String)) (s : String) :
    (∀ k, pyParseInt s = some k → st.get_user attrs s = st.pkGetUser k) ∧
    (pyParseInt s = none → st.get_user attrs s = st.scanIdentityAttributes attrs s) ∧
    (st.scanIdentityAttributes attrs s = none ↔
      ∀ a ∈ attrs, ∀ u ∈ st.users, ¬ ilikeEq (a u) s) ∧
    (∀ u, st.scanIdentityAttributes attrs s = some u →
      u ∈ st.users ∧ ∃ a ∈ attrs, ilikeEq (a u) s) := by
  refine ⟨?_, ?_, scanIdentityAttributes_eq_none st s attrs,
    fun u h => scanIdentityAttributes_eq_some st s attrs u h⟩
  · intro k hk
    simp [EState.get_user, hk]
  · intro hk
    simp [EState.get_user, hk]

/-- **C1, witness.** At the numeric identifier `"5"` the amended theorem
evaluates `get_user` to the bare primary-key lookup. -/
theorem spec_C1_get_user_numeric_direct_witness :
    EState.get_user numericEmailStore emailAttr "5" =
      EState.pkGetUser numericEmailStore 5 :=
  (spec_C1_get_user_numeric_direct numericEmailStore emailAttr "5").1 5 rfl

/-- **C2, counterexample.** With a resolvable user and the unresolvable
role name `"ghost"`, `add_role_to_user` neither raises-free-no-ops nor
reports "no change": it appends the unresolved `none` reference, persists
the user, and returns `true`, changing the store. -/
theorem spec_C2_counterexample :
    EState.add_role_to_user est0 (.ent alice) (.name "ghost") =
      .ok (true, { est0 with users := [{ alice with roles := [none] }] }, [.put]) ∧
    ({ est0 with users := [{ alice with roles := [none] }] } : EState) ≠ est0 :=
  ⟨rfl, by decide⟩

/-- **C2, amended.** When the *user* reference fails to resolve, the
membership-mutation methods raise (`AttributeError` from dereferencing
`None`) instead of reporting no change.  When the user resolves and only
the role reference fails, the membership check against `None` itself does
not raise: `remove_role_from_user` returns `false` and leaves all state
unchanged whenever no `none` entry is present, while `add_role_to_user`
appends the unresolved `none` reference, persists, and returns `true`
unless a `none` entry is already present. -/
theorem spec_C2_unresolved_references (st : EState) (uref : UserRef)
    (rref : RoleRef) :
    (st.resolveUser uref = none →
      st.add_role_to_user uref rref = .error .attributeError ∧
      st.remove_role_from_user uref rref = .error .attributeError) ∧
    (∀ u, st.resolveUser uref = some u → st.resolveRole rref = none →
      (st.remove_role_from_user uref rref =
        if none ∈ u.roles then
          .ok (true, st.putUser { u with roles := u.roles.erase none }, [.put])
        else
          .ok (false, st, [])) ∧
      (st.add_role_to_user uref rref =
        if none ∈ u.roles then
          .ok (false, st, [])
        else
          .ok (true, st.putUser { u with roles := u.roles ++ [none] }, [.put]))) := by
  constructor
  · intro h
    constructor
    · simp [EState.add_role_to_user, h]
    · simp [EState.remove_role_from_user, h]
  · intro u hu hr
    constructor
    · simp only [EState.remove_role_from_user, hu, hr]
    · simp only [EState.add_role_to_user, hu, hr]

/-- **C2, witness.** With the unresolvable email `"nobody"`, both mutation
methods raise on `est0`. -/
theorem spec_C2_unresolved_references_witness :
    EState.add_role_to_user est0 (.email "nobody") (.name "admin") =
      .error .attributeError ∧
    EState.remove_role_from_user est0 (.email "nobody") (.name "admin") =
      .error .attributeError :=
  (spec_C2_unresolved_references est0 (.email "nobody") (.name "admin")).1 (by decide)

/-- **C9, witness.** Creating a user with unspecified `active` and the
unresolvable role name `ghost` yields an active user whose relationship
list contains a `none` entry. -/
theorem spec_C9_create_user_resolution_witness :
    (EState.create_user est0
        { email := "b@x.com", active := none,
          roles := [.name "ghost"], groups := [] }).1.active =
      (none : Option Bool).getD true ∧
    none ∈ (EState.create_user est0
        { email := "b@x.com", active := none,
          roles := [.name "ghost"], groups := [] }).1.roles :=
  ⟨(spec_C9_create_user_resolution est0 _).1,
   (spec_C9_create_user_resolution est0 _).2.2.2.2.2
     (.name "ghost") (List.mem_singleton.mpr rfl) (by decide)⟩

/-- **C5.** For every sequence of membership operations with resolvable
references, the embedded-list implementation (shared `UserDatastore`
logic) and the join-table implementation (`PeeweeUserDatastore`) return
the same boolean results and induce the same user-role and user-group
membership relations (the runs end in states related by `Sim`, whose
`rmem`/`gmem` fields equate the induced relations). -/
theorem spec_C5_backend_equivalence (e : EState) (p : PState) (ops : List MemOp)
    (hs : Sim e p) (hres : ∀ op ∈ ops, op.resolvable e) :
    ∃ bs e1 p1, runE e ops = .ok (bs, e1) ∧ runP p ops = .ok (bs, p1) ∧ Sim e1 p1 :=
  sim_run ops e p hs hres

/-- **C5, witness.** A concrete three-operation program over `est0` /
`pst0` (add a role, add a group, remove the role again). -/
theorem spec_C5_backend_equivalence_witness :
    ∃ bs e1 p1,
      runE est0 [.addRole "a@x.com" "admin", .addGroup "a@x.com" "staff",
        .remRole "a@x.com" "admin"] = .ok (bs, e1) ∧
      runP pst0 [.addRole "a@x.com" "admin", .addGroup "a@x.com" "staff",
        .remRole "a@x.com" "admin"] = .ok (bs, p1) ∧ Sim e1 p1 := by
  refine spec_C5_backend_equivalence est0 pst0 _ ?_ ?_
  · refine ⟨rfl, rfl, rfl, by decide, by decide, by decide, by decide, by decide,
      by decide, by decide, ?_, ?_⟩
    · intro uid rid
      constructor
      · rintro ⟨w, hw, -⟩
        simp [pst0] at hw
      · rintro ⟨u, hu, -, r1, hr1, -⟩
        simp [est0] at hu
        subst hu
        simp [alice] at hr1
    · intro uid gid
      constructor
      · rintro ⟨w, hw, -⟩
        simp [pst0] at hw
      · rintro ⟨u, hu, -, g1, hg1, -⟩
        simp [est0] at hu
        subst hu
        simp [alice] at hg1
  · intro op hop
    simp only [List.mem_cons, List.not_mem_nil, or_false] at hop
    rcases hop with rfl | rfl | rfl
    · exact ⟨by decide, by decide⟩
    · exact ⟨by decide, by decide⟩
    · exact ⟨by decide, by decide⟩

end FlaskSecurity
